import Mathlib

/-!
# Verification of the pollution-abatement dashboard's core logic

Shallow embedding of the client-side BREF-hierarchy relevance/aggregation
engine, the patent ranking engine, the hierarchy navigator's selection rule,
the chat-context sets and the chat send guard, translated from the React
components of the repository (`HierarchicalBrefSelector.jsx`,
`OptimizedPatentSpace.jsx`, `OptimizedPollutionAbatementDashboard.jsx`,
`ChatInterface.jsx`).

Conventions of the embedding:
* JavaScript relevance scores (floats in [0,1] compared only with `>=`) are
  embedded as rationals `ℚ`.  Concrete score literals are given in normalised
  `num/den` form so that the kernel can evaluate comparisons; lemmas relate
  them to the decimal notation of the source.
* JavaScript objects used as string-keyed maps are embedded as association
  lists (iteration order = insertion order), or as functions when only
  point lookups occur.
* The heterogeneous hierarchy shapes accepted by the traversals (arrays,
  nested objects, numerically keyed maps) are normalised to a first-child /
  next-sibling tree `HTree`: a JavaScript node is a `node` constructor whose
  `child` is the chain of its children; a JavaScript array or the value list
  of an id-less container object is a sibling chain.  Ids that are absent or
  falsy (the empty string) are `none`.
-/

namespace PollutionDashboard

/-- The reliability threshold of the dashboard, `RELIABILITY_THRESHOLD = 0.68`
(in normalised form `17/25` so that kernel evaluation works). -/
def RELIABILITY_THRESHOLD : ℚ := ⟨17, 25, by norm_num, by norm_num⟩

theorem RELIABILITY_THRESHOLD_eq : RELIABILITY_THRESHOLD = 68 / 100 := by
  rw [RELIABILITY_THRESHOLD, Rat.mk'_eq_divInt, Rat.divInt_eq_div]
  norm_num

/-- `0.9` as a normalised rational. -/
def q09 : ℚ := ⟨9, 10, by norm_num, by norm_num⟩

theorem q09_eq : q09 = 9 / 10 := by
  rw [q09, Rat.mk'_eq_divInt, Rat.divInt_eq_div]
  norm_num

/-- `0.7` as a normalised rational. -/
def q07 : ℚ := ⟨7, 10, by norm_num, by norm_num⟩

theorem q07_eq : q07 = 7 / 10 := by
  rw [q07, Rat.mk'_eq_divInt, Rat.divInt_eq_div]
  norm_num

/-- A BREF hierarchy in first-child / next-sibling form.  `node i dm cm c s`
is a node with optional id `i`, the two pollutant-match annotations
`hasMatchForPollutant` / `hasChildrenWithMatchForPollutant`, child chain `c`
and the following siblings `s`.  `nil` ends a chain. -/
inductive HTree : Type where
  | nil : HTree
  | node (id : Option String) (hasMatchForPollutant : Bool)
      (hasChildrenWithMatchForPollutant : Bool) (child sib : HTree) : HTree
deriving DecidableEq

namespace HTree

/-- The id of the head node of a chain (`none` for `nil` or an id-less node). -/
def headId : HTree → Option String
  | .nil => none
  | .node i _ _ _ _ => i

/-- The child chain of the head node of a chain. -/
def childOf : HTree → HTree
  | .nil => .nil
  | .node _ _ _ c _ => c

/-- All ids occurring anywhere in a chain, in traversal order. -/
def ids : HTree → List String
  | .nil => []
  | .node i _ _ c s => i.toList ++ ids c ++ ids s

end HTree

/-- A patent-count table keyed by BREF node id (the `result` object of
`calculateCumulativeCounts`); `none` means the key was never written. -/
def Table := String → Option Nat

/-- Writing one key of a count table. -/
def Table.update (t : Table) (k : String) (v : Nat) : Table :=
  fun s => if s = k then some v else t s

/-- The initial, empty count table (`result = {}`). -/
def emptyTable : Table := fun _ => none

/-- The guarded child walk of `calculateCumulativeCounts`
(`HierarchicalBrefSelector.jsx`, lines 208-233): children of an id-bearing
node are recursed only when they have an id that is flagged relevant;
id-less or non-relevant children are skipped entirely.  Returns the updated
table together with the sum of the table reads `result[childId] || 0`
accumulated for the parent's cumulative count. -/
def calculateCumulativeCountsChildren (direct : String → Nat)
    (relevantNodes : String → Bool) : HTree → Table → Table × Nat
  | .nil, res => (res, 0)
  | .node none _ _ _ s, res => calculateCumulativeCountsChildren direct relevantNodes s res
  | .node (some i) _ _ c s, res =>
    if relevantNodes i then
      let p := calculateCumulativeCountsChildren direct relevantNodes c res
      let r1 := p.1.update i (direct i + p.2)
      let q := calculateCumulativeCountsChildren direct relevantNodes s r1
      (q.1, (r1 i).getD 0 + q.2)
    else
      calculateCumulativeCountsChildren direct relevantNodes s res

/-- `calculateCumulativeCounts` (`HierarchicalBrefSelector.jsx`, lines
171-238) on a chain: an array (or the values of an id-less container) is
traversed unconditionally; an id-bearing node gets
`result[id] = direct[id] + Σ result[childId]` over its relevant id-bearing
children only. -/
def calculateCumulativeCounts (direct : String → Nat)
    (relevantNodes : String → Bool) : HTree → Table → Table
  | .nil, res => res
  | .node none _ _ c s, res =>
    calculateCumulativeCounts direct relevantNodes s
      (calculateCumulativeCounts direct relevantNodes c res)
  | .node (some i) _ _ c s, res =>
    let p := calculateCumulativeCountsChildren direct relevantNodes c res
    calculateCumulativeCounts direct relevantNodes s
      (p.1.update i (direct i + p.2))

/-- A per-pollutant BREF relevance matrix: patent id → (BREF node id → score),
as an association list (`{ [patentId]: { [nodeId]: score } }`). -/
abbrev RelevanceMatrix := List (String × List (String × ℚ))

/-- One relevance-table bump: `directMatches[brefId]++` with a missing key
read as 0. -/
def bump (f : String → Nat) (b : String) : String → Nat :=
  fun k => if k = b then f b + 1 else f k

/-- The direct-match phase of `calculateAllPatentCounts`
(`HierarchicalBrefSelector.jsx`, lines 140-159), parametric in the
threshold: for every (patent, node, score) entry, count it iff the score
reaches the threshold and the node is flagged relevant. -/
def directMatchesWith (threshold : ℚ) (relevanceScores : RelevanceMatrix)
    (relevantNodes : String → Bool) : String → Nat :=
  relevanceScores.foldl
    (fun acc pr =>
      pr.2.foldl
        (fun acc2 br =>
          if threshold ≤ br.2 ∧ relevantNodes br.1 = true then bump acc2 br.1 else acc2)
        acc)
    (fun _ => 0)

/-- The direct-match phase at the dashboard's fixed threshold. -/
def directMatches (relevanceScores : RelevanceMatrix)
    (relevantNodes : String → Bool) : String → Nat :=
  directMatchesWith RELIABILITY_THRESHOLD relevanceScores relevantNodes

/-- `calculateAllPatentCounts` (`HierarchicalBrefSelector.jsx`, lines
134-168): direct matches, then the cumulative table over the hierarchy. -/
def calculateAllPatentCounts (relevanceScores : RelevanceMatrix)
    (hierarchy : HTree) (relevantNodes : String → Bool) : Table :=
  calculateCumulativeCounts (directMatches relevanceScores relevantNodes)
    relevantNodes hierarchy emptyTable

/-- The flattened (patentId, nodeId, score) entry list of a matrix, in the
iteration order of the nested `for ... in` loops. -/
def matrixEntries (relevanceScores : RelevanceMatrix) :
    List (String × String × ℚ) :=
  relevanceScores.flatMap (fun pr => pr.2.map (fun br => (pr.1, br.1, br.2)))

/-- Mathematical value of the guarded child sum: the contribution a chain of
children makes to its parent's cumulative count (relevant id-bearing children
contribute their own direct count plus their guarded child sum). -/
def kidsVal (direct : String → Nat) (relevantNodes : String → Bool) : HTree → Nat
  | .nil => 0
  | .node none _ _ _ s => kidsVal direct relevantNodes s
  | .node (some i) _ _ c s =>
    (if relevantNodes i then direct i + kidsVal direct relevantNodes c else 0) +
      kidsVal direct relevantNodes s

/-- The cumulative value written for the head node of a chain (0 if the head
has no id). -/
def nodeCumValue (direct : String → Nat) (relevantNodes : String → Bool) :
    HTree → Nat
  | .node (some i) _ _ c _ => direct i + kidsVal direct relevantNodes c
  | _ => 0

/-- The nodes actually visited by the guarded child walk (each kept with its
sibling context, so distinct occurrences stay distinct). -/
def procChildren (relevantNodes : String → Bool) : HTree → List HTree
  | .nil => []
  | .node none _ _ _ s => procChildren relevantNodes s
  | .node (some i) dm cm c s =>
    (if relevantNodes i then
        HTree.node (some i) dm cm c s :: procChildren relevantNodes c
      else []) ++ procChildren relevantNodes s

/-- The nodes that `calculateCumulativeCounts` writes an entry for: every
id-bearing root of the chain, and below each of them the guarded walk. -/
def procNodes (relevantNodes : String → Bool) : HTree → List HTree
  | .nil => []
  | .node none _ _ c s => procNodes relevantNodes c ++ procNodes relevantNodes s
  | .node (some i) dm cm c s =>
    HTree.node (some i) dm cm c s ::
      (procChildren relevantNodes c ++ procNodes relevantNodes s)

/-- The sum, read back from a finished table, of the cumulative counts of the
relevant id-bearing children in a chain (missing entries read as 0). -/
def tableChildrenSum (relevantNodes : String → Bool) (t : Table) : HTree → Nat
  | .nil => 0
  | .node none _ _ _ s => tableChildrenSum relevantNodes t s
  | .node (some i) _ _ _ s =>
    (if relevantNodes i then (t i).getD 0 else 0) + tableChildrenSum relevantNodes t s

section CumulativeLemmas

variable (direct : String → Nat) (relevantNodes : String → Bool)

theorem ids_node_none {dm cm : Bool} {c s : HTree} :
    (HTree.node none dm cm c s).ids = c.ids ++ s.ids := by
  simp [HTree.ids]

theorem ids_node_some {i : String} {dm cm : Bool} {c s : HTree} :
    (HTree.node (some i) dm cm c s).ids = i :: (c.ids ++ s.ids) := by
  simp [HTree.ids]

theorem childrenWalk_snd (t : HTree) :
    ∀ res : Table,
      (calculateCumulativeCountsChildren direct relevantNodes t res).2 =
        kidsVal direct relevantNodes t := by
  induction t with
  | nil => intro res; simp [calculateCumulativeCountsChildren, kidsVal]
  | node i dm cm c s ihc ihs =>
    intro res
    match i with
    | none => simpa [calculateCumulativeCountsChildren, kidsVal] using ihs res
    | some i =>
      cases h : relevantNodes i with
      | false => simp [calculateCumulativeCountsChildren, kidsVal, h, ihs]
      | true =>
        simp only [calculateCumulativeCountsChildren, kidsVal, h, if_true]
        simp [Table.update, ihc, ihs]

theorem childrenWalk_frame (t : HTree) :
    ∀ (res : Table) (k : String), k ∉ t.ids →
      (calculateCumulativeCountsChildren direct relevantNodes t res).1 k = res k := by
  induction t with
  | nil => intro res k _; simp [calculateCumulativeCountsChildren]
  | node i dm cm c s ihc ihs =>
    intro res k hk
    match i with
    | none =>
      rw [ids_node_none, List.mem_append] at hk
      push_neg at hk
      simpa [calculateCumulativeCountsChildren] using ihs res k hk.2
    | some i =>
      rw [ids_node_some, List.mem_cons, List.mem_append] at hk
      push_neg at hk
      obtain ⟨hki, hkc, hks⟩ := hk
      cases h : relevantNodes i with
      | false => simpa [calculateCumulativeCountsChildren, h] using ihs res k hks
      | true =>
        simp only [calculateCumulativeCountsChildren, h, if_true]
        rw [ihs _ k hks]
        simp only [Table.update, if_neg hki]
        exact ihc res k hkc

theorem cumulative_frame (t : HTree) :
    ∀ (res : Table) (k : String), k ∉ t.ids →
      calculateCumulativeCounts direct relevantNodes t res k = res k := by
  induction t with
  | nil => intro res k _; simp [calculateCumulativeCounts]
  | node i dm cm c s ihc ihs =>
    intro res k hk
    match i with
    | none =>
      rw [ids_node_none, List.mem_append] at hk
      push_neg at hk
      simp only [calculateCumulativeCounts]
      rw [ihs _ k hk.2, ihc res k hk.1]
    | some i =>
      rw [ids_node_some, List.mem_cons, List.mem_append] at hk
      push_neg at hk
      obtain ⟨hki, hkc, hks⟩ := hk
      simp only [calculateCumulativeCounts]
      rw [ihs _ k hks]
      simp only [Table.update, if_neg hki]
      exact childrenWalk_frame direct relevantNodes c res k hkc

theorem procChildren_headId_mem_ids (t : HTree) :
    ∀ m ∈ procChildren relevantNodes t, ∀ j, m.headId = some j → j ∈ t.ids := by
  induction t with
  | nil => intro m hm; simp [procChildren] at hm
  | node i dm cm c s ihc ihs =>
    intro m hm j hj
    match i with
    | none =>
      simp only [procChildren] at hm
      rw [ids_node_none, List.mem_append]
      exact Or.inr (ihs m hm j hj)
    | some i =>
      simp only [procChildren, List.mem_append] at hm
      rw [ids_node_some, List.mem_cons, List.mem_append]
      rcases hm with hm | hm
      · cases h : relevantNodes i with
        | false => rw [h] at hm; simp at hm
        | true =>
          rw [h] at hm
          simp only [if_true, List.mem_cons] at hm
          rcases hm with rfl | hm
          · simp [HTree.headId] at hj
            exact Or.inl hj.symm
          · exact Or.inr (Or.inl (ihc m hm j hj))
      · exact Or.inr (Or.inr (ihs m hm j hj))

theorem procNodes_headId_mem_ids (t : HTree) :
    ∀ m ∈ procNodes relevantNodes t, ∀ j, m.headId = some j → j ∈ t.ids := by
  induction t with
  | nil => intro m hm; simp [procNodes] at hm
  | node i dm cm c s ihc ihs =>
    intro m hm j hj
    match i with
    | none =>
      simp only [procNodes, List.mem_append] at hm
      rw [ids_node_none, List.mem_append]
      rcases hm with hm | hm
      · exact Or.inl (ihc m hm j hj)
      · exact Or.inr (ihs m hm j hj)
    | some i =>
      simp only [procNodes, List.mem_cons, List.mem_append] at hm
      rw [ids_node_some, List.mem_cons, List.mem_append]
      rcases hm with rfl | hm | hm
      · simp [HTree.headId] at hj
        exact Or.inl hj.symm
      · exact Or.inr (Or.inl (procChildren_headId_mem_ids relevantNodes c m hm j hj))
      · exact Or.inr (Or.inr (ihs m hm j hj))

theorem childrenWalk_correct (t : HTree) :
    ∀ res : Table, t.ids.Nodup →
      ∀ m ∈ procChildren relevantNodes t, ∀ j, m.headId = some j →
        (calculateCumulativeCountsChildren direct relevantNodes t res).1 j =
          some (nodeCumValue direct relevantNodes m) := by
  induction t with
  | nil => intro res _ m hm; simp [procChildren] at hm
  | node i dm cm c s ihc ihs =>
    intro res hnd m hm j hj
    match i with
    | none =>
      rw [ids_node_none, List.nodup_append] at hnd
      simp only [procChildren] at hm
      simpa [calculateCumulativeCountsChildren] using
        ihs res hnd.2.1 m hm j hj
    | some i =>
      rw [ids_node_some] at hnd
      have hni : i ∉ c.ids ++ s.ids := (List.nodup_cons.mp hnd).1
      have hnd' := (List.nodup_cons.mp hnd).2
      rw [List.nodup_append] at hnd'
      obtain ⟨hndc, hnds, hdisj⟩ := hnd'
      simp only [List.mem_append, not_or] at hni
      simp only [procChildren, List.mem_append] at hm
      cases h : relevantNodes i with
      | false =>
        rw [h] at hm
        simp at hm
        simpa [calculateCumulativeCountsChildren, h] using ihs res hnds m hm j hj
      | true =>
        rw [h] at hm
        simp only [if_true, List.mem_cons] at hm
        simp only [calculateCumulativeCountsChildren, h, if_true]
        rcases hm with (rfl | hm) | hm
        · simp only [HTree.headId] at hj
          cases hj
          rw [childrenWalk_frame direct relevantNodes s _ j hni.2]
          simp only [Table.update, if_pos rfl]
          rw [childrenWalk_snd direct relevantNodes c res]
          rfl
        · have hjc : j ∈ c.ids :=
            procChildren_headId_mem_ids relevantNodes c m hm j hj
          have hjs : j ∉ s.ids := hdisj hjc
          have hji : j ≠ i := fun e => hni.1 (e ▸ hjc)
          rw [childrenWalk_frame direct relevantNodes s _ j hjs]
          simp only [Table.update, if_neg hji]
          exact ihc res hndc m hm j hj
        · exact ihs _ hnds m hm j hj

theorem cumulative_correct (t : HTree) :
    ∀ res : Table, t.ids.Nodup →
      ∀ m ∈ procNodes relevantNodes t, ∀ j, m.headId = some j →
        calculateCumulativeCounts direct relevantNodes t res j =
          some (nodeCumValue direct relevantNodes m) := by
  induction t with
  | nil => intro res _ m hm; simp [procNodes] at hm
  | node i dm cm c s ihc ihs =>
    intro res hnd m hm j hj
    match i with
    | none =>
      rw [ids_node_none, List.nodup_append] at hnd
      obtain ⟨hndc, hnds, hdisj⟩ := hnd
      simp only [procNodes, List.mem_append] at hm
      simp only [calculateCumulativeCounts]
      rcases hm with hm | hm
      · have hjc : j ∈ c.ids := procNodes_headId_mem_ids relevantNodes c m hm j hj
        rw [cumulative_frame direct relevantNodes s _ j (hdisj hjc)]
        exact ihc res hndc m hm j hj
      · exact ihs _ hnds m hm j hj
    | some i =>
      rw [ids_node_some] at hnd
      have hni : i ∉ c.ids ++ s.ids := (List.nodup_cons.mp hnd).1
      have hnd' := (List.nodup_cons.mp hnd).2
      rw [List.nodup_append] at hnd'
      obtain ⟨hndc, hnds, hdisj⟩ := hnd'
      simp only [List.mem_append, not_or] at hni
      simp only [procNodes, List.mem_cons, List.mem_append] at hm
      simp only [calculateCumulativeCounts]
      rcases hm with rfl | hm | hm
      · simp only [HTree.headId] at hj
        cases hj
        rw [cumulative_frame direct relevantNodes s _ j hni.2]
        simp only [Table.update, if_pos rfl]
        rw [childrenWalk_snd direct relevantNodes c res]
        rfl
      · have hjc : j ∈ c.ids :=
          procChildren_headId_mem_ids relevantNodes c m hm j hj
        have hjs : j ∉ s.ids := hdisj hjc
        have hji : j ≠ i := fun e => hni.1 (e ▸ hjc)
        rw [cumulative_frame direct relevantNodes s _ j hjs]
        simp only [Table.update, if_neg hji]
        exact childrenWalk_correct direct relevantNodes c res hndc m hm j hj
      · exact ihs _ hnds m hm j hj

theorem procChildren_closed (t : HTree) :
    ∀ m ∈ procChildren relevantNodes t,
      ∀ x ∈ procChildren relevantNodes m.childOf, x ∈ procChildren relevantNodes t := by
  induction t with
  | nil => intro m hm; simp [procChildren] at hm
  | node i dm cm c s ihc ihs =>
    intro m hm x hx
    match i with
    | none =>
      simp only [procChildren] at hm ⊢
      exact ihs m hm x hx
    | some i =>
      simp only [procChildren, List.mem_append] at hm ⊢
      rcases hm with hm | hm
      · cases h : relevantNodes i with
        | false => rw [h] at hm; simp at hm
        | true =>
          rw [h] at hm
          simp only [if_true, List.mem_cons] at hm
          rcases hm with rfl | hm
          · simp only [HTree.childOf] at hx
            exact Or.inl (by rw [if_pos rfl]; exact List.mem_cons_of_mem _ hx)
          · exact Or.inl (by rw [if_pos rfl]; exact List.mem_cons_of_mem _ (ihc m hm x hx))
      · exact Or.inr (ihs m hm x hx)

theorem procNodes_closed (t : HTree) :
    ∀ m ∈ procNodes relevantNodes t,
      ∀ x ∈ procChildren relevantNodes m.childOf, x ∈ procNodes relevantNodes t := by
  induction t with
  | nil => intro m hm; simp [procNodes] at hm
  | node i dm cm c s ihc ihs =>
    intro m hm x hx
    match i with
    | none =>
      simp only [procNodes, List.mem_append] at hm ⊢
      rcases hm with hm | hm
      · exact Or.inl (ihc m hm x hx)
      · exact Or.inr (ihs m hm x hx)
    | some i =>
      simp only [procNodes, List.mem_cons, List.mem_append] at hm ⊢
      rcases hm with rfl | hm | hm
      · simp only [HTree.childOf] at hx
        exact Or.inr (Or.inl hx)
      · exact Or.inr (Or.inl (procChildren_closed relevantNodes c m hm x hx))
      · exact Or.inr (Or.inr (ihs m hm x hx))

/-- Any relevant id-bearing node in a chain of children is itself visited by
the guarded walk over that chain. -/
theorem procChildren_self_mem (t : HTree) :
    ∀ i dm cm c s, t = HTree.node (some i) dm cm c s → relevantNodes i = true →
      t ∈ procChildren relevantNodes t := by
  intro i dm cm c s ht h
  subst ht
  simp [procChildren, h]

/-- The bridge: if a finished table is correct on every node the guarded walk
visits below a chain, then the guarded table read-back sum over that chain
equals the mathematical child sum. -/
theorem tableChildrenSum_eq_kidsVal (T : Table) (t : HTree)
    (hT : ∀ m ∈ procChildren relevantNodes t, ∀ j, m.headId = some j →
      T j = some (nodeCumValue direct relevantNodes m)) :
    tableChildrenSum relevantNodes T t = kidsVal direct relevantNodes t := by
  induction t with
  | nil => simp [tableChildrenSum, kidsVal]
  | node i dm cm c s ihc ihs =>
    match i with
    | none =>
      simp only [tableChildrenSum, kidsVal]
      refine ihs ?_
      intro m hm j hj
      refine hT m ?_ j hj
      simpa [procChildren] using hm
    | some i =>
      simp only [tableChildrenSum, kidsVal]
      have hs : tableChildrenSum relevantNodes T s = kidsVal direct relevantNodes s := by
        refine ihs ?_
        intro m hm j hj
        refine hT m ?_ j hj
        simp only [procChildren, List.mem_append]
        exact Or.inr hm
      rw [hs]
      cases h : relevantNodes i with
      | false => simp
      | true =>
        simp only [if_true]
        have hmem : HTree.node (some i) dm cm c s ∈
            procChildren relevantNodes (HTree.node (some i) dm cm c s) :=
          procChildren_self_mem relevantNodes _ i dm cm c s rfl h
        have := hT (HTree.node (some i) dm cm c s) ?_ i rfl
        · rw [this]
          rfl
        · simp [procChildren, h]

end CumulativeLemmas

/-- C1 (amended): for every hierarchy whose node ids are pairwise distinct,
every direct-count table and every relevant-node set, the cumulative-count
table produced by `calculateCumulativeCounts` satisfies, for every node that
has an id **and that the traversal visits** (id-bearing nodes reached through
containers or arrays, and, below an id-bearing node, only children whose id
is in the relevant set), cumulative(node) = direct(node) + the sum of the
table's entries for exactly those children of the node whose id is in the
relevant-node set; children whose id is not in the set contribute nothing. -/
theorem c1_cumulative_recursion (direct : String → Nat)
    (relevantNodes : String → Bool) (h : HTree) (hnd : h.ids.Nodup)
    (m : HTree) (hm : m ∈ procNodes relevantNodes h) (j : String)
    (hj : m.headId = some j) :
    calculateCumulativeCounts direct relevantNodes h emptyTable j =
      some (direct j +
        tableChildrenSum relevantNodes
          (calculateCumulativeCounts direct relevantNodes h emptyTable)
          m.childOf) := by
  have hTj := cumulative_correct direct relevantNodes h emptyTable hnd m hm j hj
  rw [hTj]
  rcases m with _ | ⟨oi, dm, cm, c, s⟩
  · simp [HTree.headId] at hj
  · simp only [HTree.headId] at hj
    subst hj
    have hprf : ∀ x ∈ procChildren relevantNodes c, ∀ u, x.headId = some u →
        calculateCumulativeCounts direct relevantNodes h emptyTable u =
          some (nodeCumValue direct relevantNodes x) := by
      intro x hx u hu
      refine cumulative_correct direct relevantNodes h emptyTable hnd x ?_ u hu
      exact procNodes_closed relevantNodes h _ hm x (by simpa [HTree.childOf] using hx)
    simp only [HTree.childOf, nodeCumValue]
    rw [tableChildrenSum_eq_kidsVal direct relevantNodes _ c hprf]

/-- Hierarchy of the C1 counterexample: a root container holding one
id-bearing root "P" whose only child is the id-bearing node "C". -/
def c1cexTree : HTree :=
  .node none false false
    (.node (some "P") false false (.node (some "C") false false .nil .nil) .nil) .nil

/-- Direct counts of the C1 counterexample: node "C" has direct count 7. -/
def c1cexDirect : String → Nat := fun s => if s = "C" then 7 else 0

/-- Relevant-node set of the C1 counterexample: only "P" is relevant. -/
def c1cexRel : String → Bool := fun s => s == "P"

/-- C1 counterexample: node "C" has an id and direct count 7, but because "C"
is not in the relevant-node set the traversal never visits it, so the
produced table has no entry for "C" and the claimed recursive equation
(`cumulative("C") = direct("C") + 0 = 7`) fails at "C". -/
theorem c1_counterexample :
    calculateCumulativeCounts c1cexDirect c1cexRel c1cexTree emptyTable "C" = none ∧
    ¬ ((calculateCumulativeCounts c1cexDirect c1cexRel c1cexTree emptyTable "C").getD 0 =
        c1cexDirect "C" +
          tableChildrenSum c1cexRel
            (calculateCumulativeCounts c1cexDirect c1cexRel c1cexTree emptyTable)
            HTree.nil) := by
  constructor <;> decide

/-- Hierarchy of the C1 witness: root node "A" with one relevant child "B". -/
def c1wTree : HTree :=
  .node (some "A") false false (.node (some "B") true false .nil .nil) .nil

/-- Relevant-node set of the C1 witness. -/
def c1wRel : String → Bool := fun s => s == "B"

/-- Direct counts of the C1 witness. -/
def c1wDirect : String → Nat := fun _ => 1

/-- Witness for C1 (amended) at a concrete hierarchy: the root "A" satisfies
the recursive equation. -/
theorem c1_cumulative_recursion_witness :
    calculateCumulativeCounts c1wDirect c1wRel c1wTree emptyTable "A" =
      some (c1wDirect "A" +
        tableChildrenSum c1wRel
          (calculateCumulativeCounts c1wDirect c1wRel c1wTree emptyTable)
          c1wTree.childOf) :=
  c1_cumulative_recursion c1wDirect c1wRel c1wTree (by decide) c1wTree (by decide)
    "A" (by decide)

theorem directMatches_inner (t : ℚ) (relevantNodes : String → Bool)
    (rows : List (String × ℚ)) :
    ∀ (acc : String → Nat) (b : String),
      (rows.foldl
          (fun acc2 br =>
            if t ≤ br.2 ∧ relevantNodes br.1 = true then bump acc2 br.1 else acc2)
          acc) b
        = acc b +
          (if relevantNodes b = true
           then rows.countP (fun br => br.1 == b && decide (t ≤ br.2)) else 0) := by
  induction rows with
  | nil => intro acc b; simp
  | cons br rows ih =>
    intro acc b
    simp only [List.foldl_cons, List.countP_cons]
    rw [ih]
    by_cases h1 : t ≤ br.2 <;> by_cases h3 : br.1 = b
    · subst h3
      by_cases h2 : relevantNodes br.1 = true <;> simp [bump, h1, h2]
      omega
    · by_cases h2 : relevantNodes br.1 = true <;>
        simp [bump, h1, h2, h3, Ne.symm h3]
    · subst h3
      by_cases h2 : relevantNodes br.1 = true <;> simp [bump, h1, h2]
    · by_cases h2 : relevantNodes br.1 = true <;> simp [bump, h1, h2, h3, Ne.symm h3]

theorem directMatches_outer (t : ℚ) (relevantNodes : String → Bool)
    (M : RelevanceMatrix) :
    ∀ (acc : String → Nat) (b : String),
      (M.foldl
          (fun acc pr =>
            pr.2.foldl
              (fun acc2 br =>
                if t ≤ br.2 ∧ relevantNodes br.1 = true then bump acc2 br.1 else acc2)
              acc)
          acc) b
        = acc b +
          (if relevantNodes b = true
           then (matrixEntries M).countP (fun e => e.2.1 == b && decide (t ≤ e.2.2))
           else 0) := by
  induction M with
  | nil => intro acc b; simp [matrixEntries]
  | cons pr M ih =>
    intro acc b
    simp only [List.foldl_cons]
    rw [ih, directMatches_inner]
    simp only [matrixEntries, List.flatMap_cons, List.countP_append, List.countP_map]
    by_cases hb : relevantNodes b = true <;> simp [hb, Function.comp_def]
    omega

/-- C2: the direct-match phase counts a (patent, node, score) entry iff the
score reaches `RELIABILITY_THRESHOLD` and the node is in the relevant-node
set; a node outside the relevant set never accumulates any direct count. -/
theorem c2_direct_match_counts (M : RelevanceMatrix)
    (relevantNodes : String → Bool) (b : String) :
    directMatches M relevantNodes b =
      if relevantNodes b = true
      then (matrixEntries M).countP
        (fun e => e.2.1 == b && decide (RELIABILITY_THRESHOLD ≤ e.2.2))
      else 0 := by
  have := directMatches_outer RELIABILITY_THRESHOLD relevantNodes M (fun _ => 0) b
  simpa [directMatches, directMatchesWith] using this

/-!
## The patent ranking engine (`OptimizedPatentSpace.jsx`)
-/

/-- A patent object as it flows through the ranking computation. -/
structure Patent where
  id : String
  score : ℚ := 0
  title : Option String := none
  year : Option Nat := none
  abstract : Option String := none
  bref_relevance : List (String × ℚ) := []
deriving DecidableEq

/-- A patent together with the `relevanceScore` attached by the ranking. -/
abbrev RankedPatent := Patent × ℚ

/-- An entry of the patent index (`patentIndex[patentId]`). -/
structure PatentDetails where
  title : Option String := none
  year : Option Nat := none
  abstract : Option String := none
  text : Option String := none
deriving DecidableEq

/-- The patent index: patent id → details. -/
abbrev PatentIndex := List (String × PatentDetails)

/-- Point lookup in a string-keyed association list. -/
def lookupScore (rows : List (String × ℚ)) (k : String) : Option ℚ :=
  (rows.find? (fun e => e.1 == k)).map (fun e => e.2)

/-- Row lookup in a relevance matrix (`brefRelevanceScores[patentId]`). -/
def matrixRow (M : RelevanceMatrix) (patentId : String) :
    Option (List (String × ℚ)) :=
  (M.find? (fun e => e.1 == patentId)).map (fun e => e.2)

/-- Details lookup in the patent index. -/
def indexLookup (idx : PatentIndex) (patentId : String) : Option PatentDetails :=
  (idx.find? (fun e => e.1 == patentId)).map (fun e => e.2)

/-- `getRelevanceScore` (`OptimizedPatentSpace.jsx`, lines 612-633): with a
BREF selected, prefer the patent's inline `bref_relevance` map, then the
loaded matrix, else 0; with no BREF selected, the base pollutant score. -/
def getRelevanceScore (brefRelevanceScores : RelevanceMatrix) (patent : Patent)
    (brefId : Option String) : ℚ :=
  match brefId with
  | some b =>
    match lookupScore patent.bref_relevance b with
    | some v => v
    | none =>
      match matrixRow brefRelevanceScores patent.id with
      | some rows =>
        match lookupScore rows b with
        | some v => v
        | none => 0
      | none => 0
  | none => patent.score

/-- `getBrefRelevantPatentCount` (`OptimizedPatentSpace.jsx`, lines 636-649):
-1 when no BREF is selected or the matrix is empty ("not applicable"), else
the number of patents whose (truthy) score for the selected node reaches the
threshold. -/
def getBrefRelevantPatentCount (selectedBref : Option String)
    (brefRelevanceScores : RelevanceMatrix) : Int :=
  match selectedBref with
  | none => -1
  | some b =>
    if brefRelevanceScores.isEmpty then -1
    else
      (brefRelevanceScores.countP (fun pr =>
        match lookupScore pr.2 b with
        | some s => !(s == 0) && decide (RELIABILITY_THRESHOLD ≤ s)
        | none => false) : Int)

/-- Stable descending insertion by `relevanceScore`: an element is placed
before the first list element whose score does not exceed it, so elements
with equal scores keep their original relative order.  This is extensionally
the stable sort `combined.sort((a, b) => b.relevanceScore - a.relevanceScore)`
of the source (ECMAScript sorts are stable). -/
def insertByRelevanceDesc (x : RankedPatent) : List RankedPatent → List RankedPatent
  | [] => [x]
  | y :: ys => if y.2 ≤ x.2 then x :: y :: ys else y :: insertByRelevanceDesc x ys

/-- Stable sort by descending `relevanceScore`. -/
def sortByRelevanceDesc : List RankedPatent → List RankedPatent
  | [] => []
  | x :: xs => insertByRelevanceDesc x (sortByRelevanceDesc xs)

/-- One step of `new Map(list.map(p => [p.id, p]))`: inserting under an
existing key overwrites the stored value but keeps the key's original
position; a new key is appended. -/
def mapInsertById (acc : List RankedPatent) (p : RankedPatent) : List RankedPatent :=
  if acc.any (fun q => q.1.id == p.1.id) then
    acc.map (fun q => if q.1.id == p.1.id then p else q)
  else acc ++ [p]

/-- `Array.from(new Map(combinedPatents.map(p => [p.id, p])).values())`:
de-duplication by patent id with JavaScript `Map` semantics. -/
def dedupById (l : List RankedPatent) : List RankedPatent :=
  l.foldl mapInsertById []

/-- The `topPatentsWithScores` list (`OptimizedPatentSpace.jsx`, lines
667-672): every top patent scored against the selected node, keeping only
entries at or above the threshold. -/
def topPatentsWithScores (topPatents : List Patent) (M : RelevanceMatrix)
    (b : String) : List RankedPatent :=
  (topPatents.map (fun p => (p, getRelevanceScore M p (some b)))).filter
    (fun q => decide (RELIABILITY_THRESHOLD ≤ q.2))

/-- The `brefRelevantPatents` list (`OptimizedPatentSpace.jsx`, lines
674-700): additional patents pulled from the full matrix — not already among
the top patents, with a truthy score at or above the threshold for the
selected node, and present in the patent index (which hydrates title, year
and abstract). -/
def brefRelevantPatents (topPatents : List Patent) (M : RelevanceMatrix)
    (idx : PatentIndex) (b : String) : List RankedPatent :=
  M.filterMap (fun pr =>
    if topPatents.any (fun p => p.id == pr.1) then none
    else
      match lookupScore pr.2 b with
      | some s =>
        if !(s == 0) && decide (RELIABILITY_THRESHOLD ≤ s) then
          match indexLookup idx pr.1 with
          | some d =>
            some ({ id := pr.1,
                    score := 0,
                    title := some (d.title.getD ("Patent " ++ pr.1)),
                    year := d.year,
                    abstract := (match d.abstract with
                                 | some a => some a
                                 | none => d.text),
                    bref_relevance := [(b, s)] }, s)
          | none => none
        else none
      | none => none)

/-- The `combinedPatents` list (`OptimizedPatentSpace.jsx`, line 703). -/
def combinedPatents (topPatents : List Patent) (M : RelevanceMatrix)
    (idx : PatentIndex) (b : String) : List RankedPatent :=
  topPatentsWithScores topPatents M b ++ brefRelevantPatents topPatents M idx b

/-- The `uniquePatents` list (`OptimizedPatentSpace.jsx`, line 704). -/
def uniquePatents (topPatents : List Patent) (M : RelevanceMatrix)
    (idx : PatentIndex) (b : String) : List RankedPatent :=
  dedupById (combinedPatents topPatents M idx b)

/-- The no-BREF branch of `rankedPatents` (`OptimizedPatentSpace.jsx`, lines
712-720): attach the base pollutant score, filter by the threshold, sort
descending, truncate. -/
def pollutantRanked (topPatents : List Patent) (maxPatents : Nat) :
    List RankedPatent :=
  (sortByRelevanceDesc
      ((topPatents.map (fun p => (p, p.score))).filter
        (fun q => decide (RELIABILITY_THRESHOLD ≤ q.2)))).take maxPatents

/-- `rankedPatents` (`OptimizedPatentSpace.jsx`, lines 653-721).  The BREF
branch runs only when a BREF with an id is selected **and** the loaded
relevance matrix is nonempty; an empty matrix falls through to the
pollutant-score branch. -/
def rankedPatents (topPatents : List Patent) (selectedBref : Option String)
    (brefRelevanceScores : RelevanceMatrix) (patentIndex : PatentIndex)
    (maxPatents : Nat) : List RankedPatent :=
  if topPatents.isEmpty then []
  else
    match selectedBref with
    | some b =>
      if brefRelevanceScores.isEmpty then pollutantRanked topPatents maxPatents
      else if getBrefRelevantPatentCount (some b) brefRelevanceScores = 0 then []
      else
        (sortByRelevanceDesc
            (uniquePatents topPatents brefRelevanceScores patentIndex b)).take
          maxPatents
    | none => pollutantRanked topPatents maxPatents

/-- The candidate list each branch of `rankedPatents` sorts and truncates, in
its encounter order (used to state sort stability). -/
def encounterList (topPatents : List Patent) (selectedBref : Option String)
    (brefRelevanceScores : RelevanceMatrix) (patentIndex : PatentIndex) :
    List RankedPatent :=
  if topPatents.isEmpty then []
  else
    match selectedBref with
    | some b =>
      if brefRelevanceScores.isEmpty then
        (topPatents.map (fun p => (p, p.score))).filter
          (fun q => decide (RELIABILITY_THRESHOLD ≤ q.2))
      else if getBrefRelevantPatentCount (some b) brefRelevanceScores = 0 then []
      else uniquePatents topPatents brefRelevanceScores patentIndex b
    | none =>
      (topPatents.map (fun p => (p, p.score))).filter
        (fun q => decide (RELIABILITY_THRESHOLD ≤ q.2))

theorem insertByRelevanceDesc_perm (x : RankedPatent) (l : List RankedPatent) :
    (insertByRelevanceDesc x l).Perm (x :: l) := by
  induction l with
  | nil => simp [insertByRelevanceDesc]
  | cons y ys ih =>
    simp only [insertByRelevanceDesc]
    by_cases h : y.2 ≤ x.2
    · rw [if_pos h]
    · rw [if_neg h]
      exact (ih.cons y).trans (List.Perm.swap x y ys)

theorem sortByRelevanceDesc_perm (l : List RankedPatent) :
    (sortByRelevanceDesc l).Perm l := by
  induction l with
  | nil => simp [sortByRelevanceDesc]
  | cons x xs ih =>
    simp only [sortByRelevanceDesc]
    exact (insertByRelevanceDesc_perm x (sortByRelevanceDesc xs)).trans (ih.cons x)

theorem mem_sortByRelevanceDesc {a : RankedPatent} {l : List RankedPatent} :
    a ∈ sortByRelevanceDesc l ↔ a ∈ l :=
  (sortByRelevanceDesc_perm l).mem_iff

theorem mem_mapInsertById {a p : RankedPatent} {acc : List RankedPatent}
    (h : a ∈ mapInsertById acc p) : a ∈ acc ∨ a = p := by
  unfold mapInsertById at h
  by_cases hany : acc.any (fun q => q.1.id == p.1.id)
  · rw [if_pos hany] at h
    obtain ⟨r, hr, hrq⟩ := List.mem_map.mp h
    by_cases hid : (r.1.id == p.1.id) = true
    · rw [if_pos hid] at hrq
      exact Or.inr hrq.symm
    · rw [if_neg hid] at hrq
      exact Or.inl (hrq ▸ hr)
  · rw [if_neg hany] at h
    rcases List.mem_append.mp h with h | h
    · exact Or.inl h
    · exact Or.inr (by simpa using h)

theorem mem_foldl_mapInsertById (l : List RankedPatent) :
    ∀ (acc : List RankedPatent) (a : RankedPatent),
      a ∈ l.foldl mapInsertById acc → a ∈ acc ∨ a ∈ l := by
  induction l with
  | nil => intro acc a h; exact Or.inl (by simpa using h)
  | cons p l ih =>
    intro acc a h
    rw [List.foldl_cons] at h
    rcases ih (mapInsertById acc p) a h with h' | h'
    · rcases mem_mapInsertById h' with h'' | h''
      · exact Or.inl h''
      · exact Or.inr (by simp [h''])
    · exact Or.inr (List.mem_cons_of_mem _ h')

theorem mem_dedupById {a : RankedPatent} {l : List RankedPatent}
    (h : a ∈ dedupById l) : a ∈ l := by
  rcases mem_foldl_mapInsertById l [] a h with h' | h'
  · simp at h'
  · exact h'

theorem mem_topPatentsWithScores_le {tops : List Patent} {M : RelevanceMatrix}
    {b : String} {a : RankedPatent} (h : a ∈ topPatentsWithScores tops M b) :
    RELIABILITY_THRESHOLD ≤ a.2 := by
  simp only [topPatentsWithScores, List.mem_filter] at h
  exact of_decide_eq_true h.2

theorem mem_brefRelevantPatents_le {tops : List Patent} {M : RelevanceMatrix}
    {idx : PatentIndex} {b : String} {a : RankedPatent}
    (h : a ∈ brefRelevantPatents tops M idx b) :
    RELIABILITY_THRESHOLD ≤ a.2 := by
  simp only [brefRelevantPatents, List.mem_filterMap] at h
  obtain ⟨pr, _, heq⟩ := h
  split at heq
  · simp at heq
  · split at heq
    next s hs =>
      split at heq
      next hguard =>
        split at heq
        next d hd =>
          cases heq
          exact of_decide_eq_true (Bool.and_elim_right hguard)
        next => simp at heq
      next => simp at heq
    next => simp at heq

theorem mem_combinedPatents_le {tops : List Patent} {M : RelevanceMatrix}
    {idx : PatentIndex} {b : String} {a : RankedPatent}
    (h : a ∈ combinedPatents tops M idx b) :
    RELIABILITY_THRESHOLD ≤ a.2 := by
  rcases List.mem_append.mp h with h | h
  · exact mem_topPatentsWithScores_le h
  · exact mem_brefRelevantPatents_le h

theorem mapInsertById_keys (acc : List RankedPatent) (p : RankedPatent) :
    (mapInsertById acc p).map (fun q => q.1.id) =
      if acc.any (fun q => q.1.id == p.1.id) then acc.map (fun q => q.1.id)
      else acc.map (fun q => q.1.id) ++ [p.1.id] := by
  unfold mapInsertById
  by_cases hany : acc.any (fun q => q.1.id == p.1.id)
  · rw [if_pos hany, if_pos hany, List.map_map]
    refine List.map_congr_left ?_
    intro q _
    by_cases hid : (q.1.id == p.1.id) = true
    · simp only [Function.comp_apply, if_pos hid]
      exact (eq_of_beq hid).symm
    · simp only [Function.comp_apply, if_neg hid]
  · rw [if_neg hany, if_neg hany, List.map_append]
    rfl

theorem foldl_mapInsertById_keys_nodup (l : List RankedPatent) :
    ∀ acc : List RankedPatent, ((acc.map (fun q => q.1.id)).Nodup) →
      (((l.foldl mapInsertById acc).map (fun q => q.1.id)).Nodup) := by
  induction l with
  | nil => intro acc h; simpa using h
  | cons p l ih =>
    intro acc h
    rw [List.foldl_cons]
    refine ih (mapInsertById acc p) ?_
    rw [mapInsertById_keys]
    by_cases hany : acc.any (fun q => q.1.id == p.1.id)
    · rwa [if_pos hany]
    · rw [if_neg hany]
      rw [List.nodup_append]
      refine ⟨h, List.nodup_singleton _, ?_⟩
      intro a ha
      simp only [List.mem_singleton]
      intro rfl_eq
      subst rfl_eq
      obtain ⟨q, hq, hqa⟩ := List.mem_map.mp ha
      exact hany (List.any_eq_true.mpr ⟨q, hq, by simp [hqa]⟩)

theorem dedupById_keys_nodup (l : List RankedPatent) :
    ((dedupById l).map (fun q => q.1.id)).Nodup :=
  foldl_mapInsertById_keys_nodup l [] (by simp)

theorem dedupById_lastOcc (l : List RankedPatent) :
    ∀ q ∈ dedupById l,
      l.reverse.find? (fun r => r.1.id == q.1.id) = some q := by
  induction l using List.reverseRecOn with
  | nil => intro q hq; simp [dedupById] at hq
  | append_singleton u x ih =>
    intro q hq
    rw [dedupById, List.foldl_append, List.foldl_cons, List.foldl_nil] at hq
    rw [show List.foldl mapInsertById [] u = dedupById u from rfl] at hq
    rw [List.reverse_append, List.reverse_cons, List.reverse_nil, List.nil_append,
      List.singleton_append]
    rw [mapInsertById] at hq
    by_cases hany : (dedupById u).any (fun r => r.1.id == x.1.id)
    · rw [if_pos hany] at hq
      obtain ⟨r, hr, hrq⟩ := List.mem_map.mp hq
      by_cases hid : (r.1.id == x.1.id) = true
      · rw [if_pos hid] at hrq
        subst hrq
        rw [List.find?_cons_of_pos _ (by simp)]
      · rw [if_neg hid] at hrq
        rw [← hrq]
        rw [List.find?_cons_of_neg, ih r hr]
        simp only [beq_iff_eq] at hid ⊢
        exact fun e => hid e.symm
    · rw [if_neg hany] at hq
      rcases List.mem_append.mp hq with hq | hq
      · rw [List.find?_cons_of_neg, ih q hq]
        simp only [beq_iff_eq]
        intro e
        exact hany (List.any_eq_true.mpr ⟨q, hq, by simp [e.symm]⟩)
      · simp only [List.mem_singleton] at hq
        subst hq
        rw [List.find?_cons_of_pos _ (by simp)]

theorem filter_insertByRelevanceDesc (x : RankedPatent) (l : List RankedPatent)
    (c : ℚ) :
    (insertByRelevanceDesc x l).filter (fun p => p.2 == c) =
      if x.2 == c then x :: l.filter (fun p => p.2 == c)
      else l.filter (fun p => p.2 == c) := by
  induction l with
  | nil =>
    by_cases hx : (x.2 == c) = true <;>
      simp [insertByRelevanceDesc, List.filter_cons, hx]
  | cons y ys ih =>
    simp only [insertByRelevanceDesc]
    by_cases hyx : y.2 ≤ x.2
    · rw [if_pos hyx]
      by_cases hx : (x.2 == c) = true <;> simp [List.filter_cons, hx]
    · rw [if_neg hyx]
      by_cases hy : (y.2 == c) = true
      · by_cases hx : (x.2 == c) = true
        · exfalso
          refine hyx ?_
          rw [eq_of_beq hy, eq_of_beq hx]
        · simp [List.filter_cons, hy, hx, ih]
      · by_cases hx : (x.2 == c) = true <;> simp [List.filter_cons, hy, hx, ih]

theorem filter_sortByRelevanceDesc (l : List RankedPatent) (c : ℚ) :
    (sortByRelevanceDesc l).filter (fun p => p.2 == c) =
      l.filter (fun p => p.2 == c) := by
  induction l with
  | nil => simp [sortByRelevanceDesc]
  | cons x xs ih =>
    simp only [sortByRelevanceDesc]
    rw [filter_insertByRelevanceDesc]
    by_cases hx : (x.2 == c) = true <;> simp [List.filter_cons, hx, ih]

theorem exists_filter_take {α : Type} (l : List α) (n : Nat) (pred : α → Bool) :
    ∃ rest, l.filter pred = (l.take n).filter pred ++ rest := by
  induction l generalizing n with
  | nil => exact ⟨[], by simp⟩
  | cons x xs ih =>
    cases n with
    | zero => exact ⟨(x :: xs).filter pred, by simp⟩
    | succ n =>
      obtain ⟨rest, hrest⟩ := ih n
      refine ⟨rest, ?_⟩
      by_cases hx : pred x = true <;>
        simp [List.filter_cons, hx, List.take_succ_cons, hrest]

theorem rankedPatents_eq_sort_encounter (tops : List Patent)
    (selBref : Option String) (M : RelevanceMatrix) (idx : PatentIndex)
    (maxPatents : Nat) :
    rankedPatents tops selBref M idx maxPatents =
      (sortByRelevanceDesc (encounterList tops selBref M idx)).take maxPatents := by
  unfold rankedPatents encounterList pollutantRanked
  by_cases h0 : tops.isEmpty
  · simp [h0, sortByRelevanceDesc]
  · simp only [h0]
    match selBref with
    | none => simp
    | some b =>
      by_cases hM : M.isEmpty
      · simp [hM]
      · by_cases hc : getBrefRelevantPatentCount (some b) M = 0
        · simp [hM, hc, sortByRelevanceDesc]
        · simp [hM, hc]

theorem encounterList_none_eq (tops : List Patent) (M : RelevanceMatrix)
    (idx : PatentIndex) (h0 : ¬tops.isEmpty = true) :
    encounterList tops none M idx =
      (tops.map (fun p => (p, p.score))).filter
        (fun q => decide (RELIABILITY_THRESHOLD ≤ q.2)) := by
  simp [encounterList, h0]

theorem encounterList_matrix_empty_eq (tops : List Patent) (b : String)
    (M : RelevanceMatrix) (idx : PatentIndex) (h0 : ¬tops.isEmpty = true)
    (hM : M.isEmpty = true) :
    encounterList tops (some b) M idx =
      (tops.map (fun p => (p, p.score))).filter
        (fun q => decide (RELIABILITY_THRESHOLD ≤ q.2)) := by
  simp [encounterList, h0, hM]

theorem encounterList_zero_eq (tops : List Patent) (b : String)
    (M : RelevanceMatrix) (idx : PatentIndex) (h0 : ¬tops.isEmpty = true)
    (hM : ¬M.isEmpty = true)
    (hc : getBrefRelevantPatentCount (some b) M = 0) :
    encounterList tops (some b) M idx = [] := by
  simp [encounterList, h0, hM, hc]

theorem encounterList_main_eq (tops : List Patent) (b : String)
    (M : RelevanceMatrix) (idx : PatentIndex) (h0 : ¬tops.isEmpty = true)
    (hM : ¬M.isEmpty = true)
    (hc : ¬getBrefRelevantPatentCount (some b) M = 0) :
    encounterList tops (some b) M idx = uniquePatents tops M idx b := by
  simp [encounterList, h0, hM, hc]

theorem mem_encounterList_le {tops : List Patent} {selBref : Option String}
    {M : RelevanceMatrix} {idx : PatentIndex} {a : RankedPatent}
    (h : a ∈ encounterList tops selBref M idx) :
    RELIABILITY_THRESHOLD ≤ a.2 := by
  by_cases h0 : tops.isEmpty
  · simp [encounterList, h0] at h
  · cases selBref with
    | none =>
      rw [encounterList_none_eq tops M idx h0] at h
      simp only [List.mem_filter] at h
      exact of_decide_eq_true h.2
    | some b =>
      by_cases hM : M.isEmpty
      · rw [encounterList_matrix_empty_eq tops b M idx h0 hM] at h
        simp only [List.mem_filter] at h
        exact of_decide_eq_true h.2
      · by_cases hc : getBrefRelevantPatentCount (some b) M = 0
        · rw [encounterList_zero_eq tops b M idx h0 hM hc] at h
          simp at h
        · rw [encounterList_main_eq tops b M idx h0 hM hc] at h
          exact mem_combinedPatents_le (mem_dedupById h)

/-- C3: for every input, the ranking returns at most `maxPatents` entries,
every returned entry's `relevanceScore` is at or above
`RELIABILITY_THRESHOLD`, and entries with equal `relevanceScore` appear in
their encounter order (for every score value, the returned entries with that
score form a prefix of the candidate list's entries with that score, in
order: the sort is stable). -/
theorem c3_ranked_patents_guarantees (tops : List Patent)
    (selBref : Option String) (M : RelevanceMatrix) (idx : PatentIndex)
    (maxPatents : Nat) :
    (rankedPatents tops selBref M idx maxPatents).length ≤ maxPatents ∧
    (∀ p ∈ rankedPatents tops selBref M idx maxPatents,
      RELIABILITY_THRESHOLD ≤ p.2) ∧
    (∀ c : ℚ, ∃ rest,
      (encounterList tops selBref M idx).filter (fun p => p.2 == c) =
        (rankedPatents tops selBref M idx maxPatents).filter (fun p => p.2 == c)
          ++ rest) := by
  refine ⟨?_, ?_, ?_⟩
  · rw [rankedPatents_eq_sort_encounter]
    exact List.length_take_le _ _
  · intro p hp
    rw [rankedPatents_eq_sort_encounter] at hp
    have hp' : p ∈ sortByRelevanceDesc (encounterList tops selBref M idx) :=
      List.mem_of_mem_take hp
    exact mem_encounterList_le (mem_sortByRelevanceDesc.mp hp')
  · intro c
    rw [rankedPatents_eq_sort_encounter]
    obtain ⟨rest, hrest⟩ :=
      exists_filter_take (sortByRelevanceDesc (encounterList tops selBref M idx))
        maxPatents (fun p => p.2 == c)
    refine ⟨rest, ?_⟩
    rw [filter_sortByRelevanceDesc] at hrest
    exact hrest

/-- The patent of the C3 witness. -/
def c3wPatent : Patent := { id := "p1", score := q09 }

/-- Witness for C3 at a concrete input: the list returned for a single
above-threshold top patent with no BREF selected is short enough and its
head entry meets the threshold. -/
theorem c3_ranked_patents_guarantees_witness :
    (rankedPatents [c3wPatent] none [] [] 5).length ≤ 5 ∧
      RELIABILITY_THRESHOLD ≤ (c3wPatent, q09).2 :=
  ⟨(c3_ranked_patents_guarantees [c3wPatent] none [] [] 5).1,
    (c3_ranked_patents_guarantees [c3wPatent] none [] [] 5).2.1 (c3wPatent, q09)
      (by decide)⟩

/-- C4 (amended): with a BREF node selected and a nonempty loaded relevance
matrix, the union of the threshold-filtered `topPatents` set and the
matrix-derived additional-patent set is de-duplicated by patent id with
JavaScript `Map` semantics: no patent id appears twice in the returned list
(even when `topPatents` itself contains duplicate ids), and the entry kept
for each id is the **last** occurrence in the combined candidate list (at the
first occurrence's position), not the first. -/
theorem c4_dedup_by_id (tops : List Patent) (b : String) (M : RelevanceMatrix)
    (idx : PatentIndex) (maxPatents : Nat) (hM : M.isEmpty = false) :
    ((rankedPatents tops (some b) M idx maxPatents).map
        (fun p => p.1.id)).Nodup ∧
    ∀ q ∈ rankedPatents tops (some b) M idx maxPatents,
      (combinedPatents tops M idx b).reverse.find?
          (fun r => r.1.id == q.1.id) = some q := by
  unfold rankedPatents
  by_cases h0 : tops.isEmpty
  · simp [h0]
  · simp only [h0, if_neg, if_false, Bool.false_eq_true]
    rw [if_neg (by simp [hM])]
    by_cases hc : getBrefRelevantPatentCount (some b) M = 0
    · simp [hc]
    · rw [if_neg hc]
      constructor
      · have hnd := dedupById_keys_nodup (combinedPatents tops M idx b)
        have hperm :
            (sortByRelevanceDesc (uniquePatents tops M idx b)).map (fun p => p.1.id)
              |>.Perm ((uniquePatents tops M idx b).map (fun p => p.1.id)) :=
          (sortByRelevanceDesc_perm _).map _
        have hnd2 := hperm.nodup_iff.mpr hnd
        exact hnd2.sublist ((List.take_sublist _ _).map _)
      · intro q hq
        have hq' : q ∈ sortByRelevanceDesc (uniquePatents tops M idx b) :=
          List.mem_of_mem_take hq
        exact dedupById_lastOcc _ q (mem_sortByRelevanceDesc.mp hq')

/-- First occurrence of patent id "p" in the C4 counterexample (inline BREF
score 0.7). -/
def c4pA : Patent := { id := "p", bref_relevance := [("B", q07)] }

/-- Second occurrence of patent id "p" in the C4 counterexample (inline BREF
score 0.9). -/
def c4pB : Patent := { id := "p", bref_relevance := [("B", q09)] }

/-- Matrix of the C4 counterexample (nonempty, so the BREF branch runs). -/
def c4M : RelevanceMatrix := [("q", [("B", q09)])]

/-- C4 counterexample: with duplicate-id top patents whose two occurrences
carry different inline scores, the returned entry for id "p" is the second
occurrence (relevanceScore 0.9), and the first occurrence's entry
(relevanceScore 0.7) is not in the result: the first occurrence does not
win. -/
theorem c4_counterexample :
    rankedPatents [c4pA, c4pB] (some "B") c4M [] 5 = [(c4pB, q09)] ∧
      (c4pA, q07) ∉ rankedPatents [c4pA, c4pB] (some "B") c4M [] 5 := by
  constructor <;> decide

/-- Top patent of the C4 witness. -/
def c4wTop : Patent := { id := "w", bref_relevance := [("B", q09)] }

/-- Witness for C4 (amended) at a concrete input. -/
theorem c4_dedup_by_id_witness :
    ((rankedPatents [c4wTop] (some "B") c4M [] 5).map
        (fun p => p.1.id)).Nodup :=
  (c4_dedup_by_id [c4wTop] "B" c4M [] 5 (by decide)).1

/-- C5 (amended): with a BREF node selected, the ranking counts the matrix
entries scoring at or above the threshold for that node only when the loaded
matrix is **nonempty**, and returns the empty list whenever that count is
zero; with an **empty** relevance matrix the BREF branch is skipped entirely
and the computation falls back to pollutant-based ranking of `topPatents`
(so the result need not be empty). -/
theorem c5_zero_count_and_empty_matrix (tops : List Patent) (b : String)
    (M : RelevanceMatrix) (idx : PatentIndex) (maxPatents : Nat) :
    (M.isEmpty = false → getBrefRelevantPatentCount (some b) M = 0 →
      rankedPatents tops (some b) M idx maxPatents = []) ∧
    (M.isEmpty = true →
      rankedPatents tops (some b) M idx maxPatents =
        pollutantRanked tops maxPatents) := by
  constructor
  · intro hM hc
    unfold rankedPatents
    by_cases h0 : tops.isEmpty
    · simp [h0]
    · simp only [h0, Bool.false_eq_true, if_false]
      rw [if_neg (by simp [hM]), if_pos hc]
  · intro hM
    unfold rankedPatents
    by_cases h0 : tops.isEmpty
    · have : tops = [] := List.isEmpty_iff.mp h0
      subst this
      simp [pollutantRanked, sortByRelevanceDesc]
    · simp [h0, hM]

/-- Top patent of the C5 scenarios, base pollutant score 0.9. -/
def c5p : Patent := { id := "p1", score := q09 }

/-- C5 counterexample: with an empty relevance matrix and a selected BREF
node, the ranking does **not** return the empty list — it falls back to
pollutant-based ranking of the top patents. -/
theorem c5_counterexample :
    rankedPatents [c5p] (some "B") [] [] 5 = [(c5p, q09)] ∧
      rankedPatents [c5p] (some "B") [] [] 5 ≠ [] := by
  constructor <;> decide

/-- Matrix of the C5 witness: nonempty but with no entry for node "B". -/
def c5wM : RelevanceMatrix := [("q", [("X", q09)])]

/-- Witness for C5 (amended) at a concrete input: nonempty matrix, zero
relevant count for node "B", so the result is the explicit empty list. -/
theorem c5_zero_count_witness :
    rankedPatents [c5p] (some "B") c5wM [] 5 = [] :=
  (c5_zero_count_and_empty_matrix [c5p] "B" c5wM [] 5).1 (by decide) (by decide)

/-- C9: with an empty `topPatents` list the ranking returns the empty list
for every selected BREF node, relevance matrix and patent index — the
matrix-derived augmentation step is never reached. -/
theorem c9_empty_top_patents (selBref : Option String) (M : RelevanceMatrix)
    (idx : PatentIndex) (maxPatents : Nat) :
    rankedPatents [] selBref M idx maxPatents = [] := by
  simp [rankedPatents]

/-!
## The hierarchy navigator's selection rule
(`HierarchicalBrefSelector.jsx` and the dashboard's `handleBrefSelect`)
-/

/-- `checkNodeMatches`'s recursive fallback over a chain of children: some
child (or a deeper descendant through the fallback) carries a match flag. -/
def chainMatches : HTree → Bool
  | .nil => false
  | .node _ dm cm c s => (dm || cm || chainMatches c) || chainMatches s

/-- `checkNodeMatches` (`HierarchicalBrefSelector.jsx`, lines 283-312) on the
head node of a chain: return the node's explicit flags when either is set,
otherwise fall back to a recursive scan of the children. -/
def checkNodeMatches : HTree → Bool × Bool
  | .nil => (false, false)
  | .node _ dm cm c _ => if dm || cm then (dm, cm) else (dm, chainMatches c)

/-- Whether the head node of a chain has children (`hasChildren` of
`renderNode`, lines 479-483; an absent or empty children collection means a
leaf). -/
def hasChildrenB : HTree → Bool
  | .nil => false
  | .node _ _ _ .nil _ => false
  | .node _ _ _ (.node _ _ _ _ _) _ => true

/-- A breadcrumb path entry `{ id, name }`. -/
abbrev PathEntry := Option String × String

/-- The selection state owned by the dashboard: the active BREF node and its
ancestor path (`selectedBref` / `selectedBrefPath`). -/
structure SelState where
  selectedBref : Option HTree
  selectedBrefPath : List PathEntry
deriving DecidableEq

/-- `handleSelectNode` (`HierarchicalBrefSelector.jsx`, lines 315-338):
returns the argument passed to `onBrefSelect` when the selection is
accepted, `none` when it is rejected (non-leaf, or non-relevant while a
pollutant is active). -/
def handleSelectNode (selectedPollutant : Option String) (node : HTree)
    (path : List PathEntry) (isRelevant isLeaf : Bool) :
    Option (HTree × List PathEntry) :=
  if !isLeaf then none
  else if selectedPollutant.isSome && !isRelevant then none
  else some (node, path)

/-- `handleBrefSelect` (`OptimizedPollutionAbatementDashboard.jsx`, lines
204-208): the sole mutation of the active selection and its path. -/
def handleBrefSelect (arg : HTree × List PathEntry) : SelState :=
  { selectedBref := some arg.1, selectedBrefPath := arg.2 }

/-- One click on a rendered node, composed exactly as at the call site of
`renderNode` (line 546): `isRelevant` and `isLeaf` are computed from the
node, `handleSelectNode` decides, and an accepted selection invokes
`onBrefSelect = handleBrefSelect`.  Returns the new state and whether the
callback ran. -/
def selectNodeStep (selectedPollutant : Option String) (st : SelState)
    (node : HTree) (path : List PathEntry) : SelState × Bool :=
  match handleSelectNode selectedPollutant node path
      ((checkNodeMatches node).1 || (checkNodeMatches node).2)
      (!hasChildrenB node) with
  | none => (st, false)
  | some arg => (handleBrefSelect arg, true)

/-- C7: clicking a node with children leaves the active BREF selection and
its ancestor path unchanged (and does not invoke the callback); with a
pollutant active, so does clicking a leaf that is not relevant (neither a
direct nor a descendant match); and whenever the callback is not invoked the
state is unchanged — the accepted-selection callback is the sole mutation. -/
theorem c7_selection_rejection (selectedPollutant : Option String)
    (st : SelState) (node : HTree) (path : List PathEntry) :
    (hasChildrenB node = true →
      selectNodeStep selectedPollutant st node path = (st, false)) ∧
    (selectedPollutant.isSome = true → hasChildrenB node = false →
      ((checkNodeMatches node).1 || (checkNodeMatches node).2) = false →
      selectNodeStep selectedPollutant st node path = (st, false)) ∧
    ((selectNodeStep selectedPollutant st node path).2 = false →
      (selectNodeStep selectedPollutant st node path).1 = st) := by
  refine ⟨?_, ?_, ?_⟩
  · intro hch
    simp [selectNodeStep, handleSelectNode, hch]
  · intro hpol hch hrel
    simp [selectNodeStep, handleSelectNode, hpol, hch, hrel]
  · intro hcb
    unfold selectNodeStep at hcb ⊢
    revert hcb
    cases handleSelectNode selectedPollutant node path
        ((checkNodeMatches node).1 || (checkNodeMatches node).2)
        (!hasChildrenB node) with
    | none => intro _; rfl
    | some arg => intro hcb; simp at hcb

/-- A non-relevant leaf node used by the C7 witness. -/
def c7Leaf : HTree := .node (some "X") false false .nil .nil

/-- An initial selection state used by the C7 witness. -/
def c7St : SelState := { selectedBref := none, selectedBrefPath := [] }

/-- Witness for C7 at a concrete input: with a pollutant active, clicking a
non-relevant leaf changes nothing and does not invoke the callback. -/
theorem c7_selection_rejection_witness :
    selectNodeStep (some "Ammonia") c7St c7Leaf [] = (c7St, false) :=
  (c7_selection_rejection (some "Ammonia") c7St c7Leaf []).2.1 (by decide)
    (by decide) (by decide)

/-!
## The chat-context sets (`OptimizedPollutionAbatementDashboard.jsx`)
-/

/-- A BREF section stored in the chat context (`{ id, name, text }`). -/
structure BrefContextEntry where
  id : String
  name : String
  text : String
deriving DecidableEq

/-- The BREF argument of `handleAddBrefToContext` (its `name` may be
absent/falsy, in which case the id is used). -/
structure BrefRef where
  id : String
  name : Option String
deriving DecidableEq

/-- `handleAddBrefToContext` (`OptimizedPollutionAbatementDashboard.jsx`,
lines 217-235): append the section unless an entry with the same id is
already present. -/
def handleAddBrefToContext (prev : List BrefContextEntry) (bref : BrefRef)
    (brefText : String) : List BrefContextEntry :=
  let brefToAdd : BrefContextEntry :=
    { id := bref.id, name := bref.name.getD bref.id, text := brefText }
  if prev.any (fun b => b.id == bref.id) then prev else prev ++ [brefToAdd]

/-- `handlePatentToggle` (`OptimizedPollutionAbatementDashboard.jsx`, lines
271-281): remove the patent when an entry with its id is present, append it
otherwise — a toggle, not an idempotent add. -/
def handlePatentToggle (prev : List Patent) (patent : Patent) : List Patent :=
  if prev.any (fun p => p.id == patent.id) then
    prev.filter (fun p => p.id != patent.id)
  else prev ++ [patent]

/-- C8 (amended): the BREF-context set is idempotent under repeated add — a
second `handleAddBrefToContext` with a bref id already present returns the
previous list unchanged; the patent-context operation, however, is a
**toggle**: invoked with a patent whose id is already a member it removes
every entry with that id instead of being a no-op. -/
theorem c8_context_set_operations :
    (∀ (prev : List BrefContextEntry) (bref : BrefRef) (t t' : String),
      handleAddBrefToContext (handleAddBrefToContext prev bref t) bref t' =
        handleAddBrefToContext prev bref t) ∧
    (∀ (prev : List Patent) (p : Patent),
      prev.any (fun q => q.id == p.id) = true →
      handlePatentToggle prev p = prev.filter (fun q => q.id != p.id)) := by
  constructor
  · intro prev bref t t'
    unfold handleAddBrefToContext
    by_cases h : prev.any (fun b => b.id == bref.id)
    · simp [h]
    · rw [if_neg h]
      rw [if_pos]
      simp
  · intro prev p h
    unfold handlePatentToggle
    rw [if_pos h]

/-- The patent used for the C8 scenarios. -/
def c8P1 : Patent := { id := "P1" }

/-- C8 counterexample: "adding" patent id "P1" twice via the patent-context
operation does not leave the set size unchanged — the second invocation
removes the patent (size drops from 1 to 0), because the operation is a
toggle. -/
theorem c8_counterexample :
    (handlePatentToggle (handlePatentToggle [] c8P1) c8P1).length ≠
      (handlePatentToggle [] c8P1).length ∧
    handlePatentToggle (handlePatentToggle [] c8P1) c8P1 ≠
      handlePatentToggle [] c8P1 := by
  constructor <;> decide

/-- Witness for C8 (amended) at a concrete input: toggling a present patent
removes it. -/
theorem c8_context_set_operations_witness :
    handlePatentToggle [c8P1] c8P1 = [c8P1].filter (fun q => q.id != c8P1.id) :=
  c8_context_set_operations.2 [c8P1] c8P1 (by decide)

/-!
## The chat send guard (`ChatInterface.jsx`)
-/

/-- The role tag of a chat transcript message. -/
inductive ChatRole : Type where
  | system : ChatRole
  | user : ChatRole
  | assistant : ChatRole
deriving DecidableEq

/-- One chat transcript message. -/
structure ChatMessage where
  sender : ChatRole
  text : String
deriving DecidableEq

/-- The guided message appended when the user sends with an empty context. -/
def emptyContextWarning : String :=
  "Please select at least one patent or BREF section before asking questions."

/-- `handleSendMessage` (`ChatInterface.jsx`, lines 86-107), up to theedge
of the asynchronous collaborator call: returns the transcript after the
synchronous appends together with whether the collaborator is called.
`!message.trim()` (trimmed message empty) is modelled as "every character of
the message is whitespace". -/
def handleSendMessage (messages : List ChatMessage)
    (selectedPatents : List Patent) (selectedBrefs : List BrefContextEntry)
    (message : String) (isLoading : Bool) : List ChatMessage × Bool :=
  if message.data.all Char.isWhitespace && !isLoading then (messages, false)
  else if selectedPatents.isEmpty && selectedBrefs.isEmpty then
    (messages ++ [{ sender := ChatRole.system, text := emptyContextWarning }],
      false)
  else (messages ++ [{ sender := ChatRole.user, text := message }], true)

/-- C10: sending a non-empty message while both context sets are empty
appends exactly one local system-role message and returns without calling
the collaborator and without appending a user-role message. -/
theorem c10_send_rejects_empty_context (messages : List ChatMessage)
    (selectedPatents : List Patent) (selectedBrefs : List BrefContextEntry)
    (message : String) (isLoading : Bool)
    (hmsg : message.data.all Char.isWhitespace = false)
    (hpat : selectedPatents = []) (hbref : selectedBrefs = []) :
    handleSendMessage messages selectedPatents selectedBrefs message isLoading =
      (messages ++ [{ sender := ChatRole.system, text := emptyContextWarning }],
        false) := by
  subst hpat hbref
  simp [handleSendMessage, hmsg]

/-- Witness for C10 at a concrete input. -/
theorem c10_send_rejects_empty_context_witness :
    handleSendMessage [] [] [] "hello" false =
      ([{ sender := ChatRole.system, text := emptyContextWarning }], false) :=
  c10_send_rejects_empty_context [] [] [] "hello" false (by decide) rfl rfl

/-!
## The concrete aggregation fixture (spec §8, testable property 8)

The hierarchy literal `{A: {children: [{id:"A1"}, {id:"A2", children:
[{id:"A2a"}]}]}}` maps the top-level key "A" to a node object **without an
id**, so the traversal treats it as a transparent container: the key "A"
never becomes a table key.
-/

/-- Leaf `{id:"A2a"}`. -/
def fixtureA2a : HTree := .node (some "A2a") false false .nil .nil

/-- Node `{id:"A2", children:[{id:"A2a"}]}`. -/
def fixtureA2 : HTree := .node (some "A2") false false fixtureA2a .nil

/-- Chain `[{id:"A1"}, {id:"A2", ...}]`. -/
def fixtureA1 : HTree := .node (some "A1") false false .nil fixtureA2

/-- The id-less content object under the key "A". -/
def fixtureContent : HTree := .node none false false fixtureA1 .nil

/-- The hierarchy `{A: {children: [...]}}`: an id-less container whose only
value is the (also id-less) content node. -/
def fixtureHierarchy : HTree := .node none false false fixtureContent .nil

/-- The relevant-node set of the fixture: A, A1, A2, A2a. -/
def fixtureRel : String → Bool :=
  fun s => s == "A" || s == "A1" || s == "A2" || s == "A2a"

/-- The matrix `{"p1":{"A1":0.9},"p2":{"A2a":0.7}}`. -/
def fixtureMatrix : RelevanceMatrix :=
  [("p1", [("A1", q09)]), ("p2", [("A2a", q07)])]

/-- The cumulative table the aggregator produces on the fixture. -/
def fixtureTable : Table :=
  calculateAllPatentCounts fixtureMatrix fixtureHierarchy fixtureRel

/-- C6 counterexample: on the fixture, the cumulative-count table has **no**
entry for "A" (the top-level key maps to an id-less node, which the
traversal treats as a transparent container), so the claimed cumulative
count `A: 2` is wrong — the table reads back 0 at "A", not 2. -/
theorem c6_counterexample :
    fixtureTable "A" = none ∧ ¬((fixtureTable "A").getD 0 = 2) := by
  constructor <;> decide

/-- C6 (amended): on the concrete fixture with threshold 0.68 and relevant
set {A, A1, A2, A2a}, the aggregator produces direct counts
`{A1: 1, A2a: 1}` (zero elsewhere) and cumulative counts
`{A1: 1, A2a: 1, A2: 1}`, with no entry for "A". -/
theorem c6_fixture_counts :
    directMatches fixtureMatrix fixtureRel "A1" = 1 ∧
    directMatches fixtureMatrix fixtureRel "A2a" = 1 ∧
    directMatches fixtureMatrix fixtureRel "A2" = 0 ∧
    directMatches fixtureMatrix fixtureRel "A" = 0 ∧
    fixtureTable "A1" = some 1 ∧
    fixtureTable "A2a" = some 1 ∧
    fixtureTable "A2" = some 1 ∧
    fixtureTable "A" = none := by
  refine ⟨?_, ?_, ?_, ?_, ?_, ?_, ?_, ?_⟩ <;> decide

end PollutionDashboard
